import Mathlib

/-!
Verification of `esp32_flash_encrypt.py`, a script that automates ESP32 flash
encryption by sequencing invocations of three external vendor tools
(`espsecure.py`, `espefuse.py`, `esptool.py`).

The script is shallowly embedded as follows.  The environment is abstracted by
a `World`: `path_exists` gives the answer of every `os.path.exists` /
`Path.exists` query, and `outcome` gives the result of handing a (already
rewritten) command line to `subprocess.run`.  `main` returns a `MainResult`:
the list of command lines passed to `run_command` (in their original,
pre-`fix_esp_command` form, in order) together with the exit status
(`some 1` for `sys.exit(1)`, `none` when the script runs to completion).
The interactive cleanup prompts at the end of the script invoke no external
command and are not part of the trace.
-/

/-- A command line, as a list of argv strings. -/
abbrev Cmd := List String

/-- Result of `subprocess.run` as observed by `run_command`: either the
process ran and exited with a return code (`check=True` raises
`CalledProcessError` on a nonzero code), or the executable was not found
(`FileNotFoundError`). -/
inductive ProcOutcome where
  | completed (returncode : Nat)
  | notFound
deriving DecidableEq

/-- The `esp_tools` dictionary of `fix_esp_command`: ESP tool script name to
python module name. -/
def esp_tools : List (String × String) :=
  [("espsecure.py", "espsecure"), ("espefuse.py", "espefuse"), ("esptool.py", "esptool")]

/-- `fix_esp_command(cmd)`: convert ESP tool commands to the `python -m`
form.  `sys_executable` stands for `sys.executable` and `is_windows` for
`platform.system() == "Windows"`. -/
def fix_esp_command (sys_executable : String) (is_windows : Bool) (cmd : Cmd) : Cmd :=
  match cmd with
  | [] => []
  | c :: rest =>
    match List.lookup c esp_tools with
    | some module_name => sys_executable :: "-m" :: module_name :: rest
    | none =>
      if is_windows && String.endsWith c ".py" then sys_executable :: c :: rest
      else c :: rest

/-- `run_command`'s error handling: it returns `True` exactly when the
subprocess completes with exit code `0`; a `CalledProcessError` (nonzero
return code) or a `FileNotFoundError` is caught and yields `False`. -/
def run_command : ProcOutcome → Bool
  | .completed returncode => returncode == 0
  | .notFound => false

/-- `check_file_exists(filepath)`: returns whether the file exists (the
printing is not modelled). -/
def check_file_exists (path_exists : String → Bool) (filepath : String) : Bool :=
  path_exists filepath

/-- The environment a run of the script observes: answers of file-existence
queries and the subprocess outcome of each (rewritten) command line. -/
structure World where
  outcome : Cmd → ProcOutcome
  path_exists : String → Bool

/-- The boolean value `run_command(cmd)` returns in world `w`: the command is
first rewritten by `fix_esp_command`, then handed to `subprocess.run`. -/
def cmd_ok (sys_executable : String) (is_windows : Bool) (w : World) (cmd : Cmd) : Bool :=
  run_command (w.outcome (fix_esp_command sys_executable is_windows cmd))

/-- The parsed CLI arguments of `main` (field names as in the script). -/
structure Args where
  port : String
  chip : String
  key_file : String
  build_dir : String
  development : Bool
  skip_efuse : Bool
  encrypt_only : Bool
  flash_only : Bool
deriving DecidableEq

/-- Result of a run of `main`: the original command lines passed to
`run_command`, in order, and `some c` when the script called `sys.exit(c)`
(`none` when it fell through to the final prompts and returned normally). -/
structure MainResult where
  trace : List Cmd
  exit : Option Nat
deriving DecidableEq

/-- `bootloader_bin = build_dir / "bootloader.bin"`. -/
def bootloader_bin (a : Args) : String := a.build_dir ++ "/bootloader.bin"

/-- `partitions_bin = build_dir / "partitions.bin"`. -/
def partitions_bin (a : Args) : String := a.build_dir ++ "/partitions.bin"

/-- `firmware_bin = build_dir / "firmware.bin"`. -/
def firmware_bin (a : Args) : String := a.build_dir ++ "/firmware.bin"

/-- `encrypted_bootloader` output filename. -/
def encrypted_bootloader : String := "encrypted_bootloader.bin"

/-- `encrypted_partitions` output filename. -/
def encrypted_partitions : String := "encrypted_partitions.bin"

/-- `encrypted_firmware` output filename. -/
def encrypted_firmware : String := "encrypted_firmware.bin"

/-- The `encrypted_files` list checked before flashing. -/
def encrypted_files : List String :=
  [encrypted_bootloader, encrypted_partitions, encrypted_firmware]

/-- The key-generation command of Step 1. -/
def generate_key_cmd (a : Args) : Cmd :=
  ["espsecure.py", "generate_flash_encryption_key", a.key_file]

/-- The `burn_key flash_encryption` command of Step 2. -/
def burn_key_cmd (a : Args) : Cmd :=
  ["espefuse.py", "--port", a.port, "--do-not-confirm", "burn_key",
   "flash_encryption", a.key_file]

/-- `crypt_cnt`: FLASH_CRYPT_CNT value, `"1"` in development mode and
`"127"` otherwise. -/
def crypt_cnt (a : Args) : String := if a.development then "1" else "127"

/-- The `burn_efuse FLASH_CRYPT_CNT` command of Step 3. -/
def burn_flash_crypt_cnt_cmd (a : Args) : Cmd :=
  ["espefuse.py", "--port", a.port, "--do-not-confirm", "--chip", a.chip,
   "burn_efuse", "FLASH_CRYPT_CNT", crypt_cnt a]

/-- The `burn_efuse FLASH_CRYPT_CONFIG 0xF` command of Step 3. -/
def burn_flash_crypt_config_cmd (a : Args) : Cmd :=
  ["espefuse.py", "--port", a.port, "--do-not-confirm", "--chip", a.chip,
   "burn_efuse", "FLASH_CRYPT_CONFIG", "0xF"]

/-- The `write_protect_efuse DIS_CACHE` command of Step 4 (production mode
only). -/
def write_protect_cmd (a : Args) : Cmd :=
  ["espefuse.py", "--port", a.port, "--do-not-confirm", "write_protect_efuse",
   "DIS_CACHE"]

/-- All commands issued by the eFuse block, in order: `burn_key`, then
FLASH_CRYPT_CNT, then FLASH_CRYPT_CONFIG, then (unless in development mode)
the write-protect command.  Their failures only print a message. -/
def efuse_cmds (a : Args) : List Cmd :=
  [burn_key_cmd a, burn_flash_crypt_cnt_cmd a, burn_flash_crypt_config_cmd a]
    ++ (if a.development then [] else [write_protect_cmd a])

/-- The `encryption_tasks` list: source file, output file, flash address,
description. -/
def encryption_tasks (a : Args) : List (String × String × String × String) :=
  [(bootloader_bin a, encrypted_bootloader, "0x1000", "Encrypt bootloader"),
   (partitions_bin a, encrypted_partitions, "0x8000", "Encrypt partition table"),
   (firmware_bin a, encrypted_firmware, "0x10000", "Encrypt firmware")]

/-- The `espsecure.py encrypt_flash_data` command for one encryption task. -/
def encrypt_flash_data_cmd (a : Args) (source_file output_file address : String) : Cmd :=
  ["espsecure.py", "encrypt_flash_data", "--keyfile", a.key_file,
   "--address", address, "--output", output_file, source_file]

/-- `flash_cmd`: the single `esptool.py write_flash` invocation flashing the
three encrypted binaries at their addresses. -/
def flash_cmd (a : Args) : Cmd :=
  ["esptool.py", "--chip", a.chip, "--port", a.port, "write_flash",
   "0x1000", encrypted_bootloader,
   "0x8000", encrypted_partitions,
   "0x10000", encrypted_firmware]

/-- The `for source_file, output_file, address, description in
encryption_tasks` loop: runs the encryption command of each task in order,
stopping (with `sys.exit(1)` in the caller) at the first failure.  Returns
the commands issued and whether all of them succeeded. -/
def encrypt_loop (runc : Cmd → Bool) (a : Args) :
    List (String × String × String × String) → List Cmd × Bool
  | [] => ([], true)
  | (source_file, output_file, address, _) :: rest =>
    let c := encrypt_flash_data_cmd a source_file output_file address
    if runc c then
      let r := encrypt_loop runc a rest
      (c :: r.1, r.2)
    else ([c], false)

/-- The final block (`if not args.encrypt_only`): check the three encrypted
files exist (exiting 1 at a missing one, before any esptool call), then run
`flash_cmd`, exiting 1 on failure. -/
def step_flash (runc : Cmd → Bool) (path_exists : String → Bool) (a : Args)
    (tr : List Cmd) : MainResult :=
  if a.encrypt_only then ⟨tr, none⟩
  else if encrypted_files.all path_exists then
    if runc (flash_cmd a) then ⟨tr ++ [flash_cmd a], none⟩
    else ⟨tr ++ [flash_cmd a], some 1⟩
  else ⟨tr, some 1⟩

/-- The encryption block (`if not args.flash_only`): encrypt the three
binaries in order, exiting 1 at the first failure, then fall through to the
flashing block. -/
def step_encrypt (runc : Cmd → Bool) (path_exists : String → Bool) (a : Args)
    (tr : List Cmd) : MainResult :=
  if a.flash_only then step_flash runc path_exists a tr
  else
    let r := encrypt_loop runc a (encryption_tasks a)
    if r.2 then step_flash runc path_exists a (tr ++ r.1)
    else ⟨tr ++ r.1, some 1⟩

/-- The eFuse block (`if not skip_efuse and not encrypt_only and not
flash_only`): issue the eFuse commands — their failures only print and never
alter control flow — then fall through to the encryption block. -/
def step_efuse (runc : Cmd → Bool) (path_exists : String → Bool) (a : Args)
    (tr : List Cmd) : MainResult :=
  if !a.skip_efuse && !a.encrypt_only && !a.flash_only then
    step_encrypt runc path_exists a (tr ++ efuse_cmds a)
  else step_encrypt runc path_exists a tr

/-- `files_exist` of Step 1: all three build outputs are present. -/
def source_files_exist (path_exists : String → Bool) (a : Args) : Bool :=
  check_file_exists path_exists (bootloader_bin a)
    && check_file_exists path_exists (partitions_bin a)
    && check_file_exists path_exists (firmware_bin a)

/-- Step 1 (`if not args.flash_only`): generate the key if the key file is
absent (exiting 1 on failure), then check the three build outputs exist
(exiting 1 if any is missing), then fall through to the eFuse block. -/
def step_keygen (runc : Cmd → Bool) (path_exists : String → Bool) (a : Args) :
    MainResult :=
  if a.flash_only then step_efuse runc path_exists a []
  else if path_exists a.key_file then
    if source_files_exist path_exists a then step_efuse runc path_exists a []
    else ⟨[], some 1⟩
  else if runc (generate_key_cmd a) then
    if source_files_exist path_exists a then
      step_efuse runc path_exists a [generate_key_cmd a]
    else ⟨[generate_key_cmd a], some 1⟩
  else ⟨[generate_key_cmd a], some 1⟩

/-- The script's `main` (the name `main` is reserved in Lean for an `IO`
entry point): after argument parsing, exit 1 if the build directory is
missing, then run the four blocks in order. -/
def main_run (sys_executable : String) (is_windows : Bool) (w : World) (a : Args) :
    MainResult :=
  if w.path_exists a.build_dir then
    step_keygen (cmd_ok sys_executable is_windows w) w.path_exists a
  else ⟨[], some 1⟩

/-- Example arguments: required `--port` plus all defaults, no flags. -/
def args_ex : Args :=
  { port := "COM1", chip := "esp32", key_file := "my_flash_encryption_key.bin",
    build_dir := ".pio/build/esp32dev", development := false,
    skip_efuse := false, encrypt_only := false, flash_only := false }

/-- Example world: every file except the key file exists, every command
succeeds. -/
def w_ok : World :=
  { outcome := fun _ => ProcOutcome.completed 0,
    path_exists := fun p => !(p == "my_flash_encryption_key.bin") }

/-- Example arguments with `--flash-only`. -/
def args_flash_only : Args := { args_ex with flash_only := true }

/-- Example arguments with `--encrypt-only`. -/
def args_encrypt_only : Args := { args_ex with encrypt_only := true }

/-- Example world where every file exists and every command exits 0. -/
def w_all : World :=
  { outcome := fun _ => ProcOutcome.completed 0, path_exists := fun _ => true }

/-- Example world where every command fails with exit code 1 (files as in
`w_ok`). -/
def w_fail : World :=
  { outcome := fun _ => ProcOutcome.completed 1,
    path_exists := fun p => !(p == "my_flash_encryption_key.bin") }

/-- Example world where the bootloader build output is missing. -/
def w_no_src : World :=
  { outcome := fun _ => ProcOutcome.completed 0,
    path_exists := fun p => !(p == ".pio/build/esp32dev/bootloader.bin") }

/-- Example world where an encrypted output file is missing. -/
def w_no_enc : World :=
  { outcome := fun _ => ProcOutcome.completed 0,
    path_exists := fun p => !(p == "encrypted_bootloader.bin") }

lemma encrypt_loop_mem (runc : Cmd → Bool) (a : Args)
    (ts : List (String × String × String × String)) (c : Cmd)
    (hc : c ∈ (encrypt_loop runc a ts).1) :
    ∃ t ∈ ts, c = encrypt_flash_data_cmd a t.1 t.2.1 t.2.2.1 := by
  induction ts with
  | nil => simp [encrypt_loop] at hc
  | cons t rest ih =>
    obtain ⟨s, o, adr, d⟩ := t
    by_cases h : runc (encrypt_flash_data_cmd a s o adr) = true
    · simp only [encrypt_loop] at hc
      rw [if_pos h] at hc
      rcases List.mem_cons.1 hc with rfl | hc
      · exact ⟨(s, o, adr, d), by simp, rfl⟩
      · obtain ⟨t, ht, rfl⟩ := ih hc
        exact ⟨t, by simp [ht], rfl⟩
    · simp only [encrypt_loop] at hc
      rw [if_neg h] at hc
      exact ⟨(s, o, adr, d), by simp, List.mem_singleton.1 hc⟩

lemma step_flash_mem (runc : Cmd → Bool) (pe : String → Bool) (a : Args)
    (tr : List Cmd) (c : Cmd) (hc : c ∈ (step_flash runc pe a tr).trace) :
    c ∈ tr
  ∨ (a.encrypt_only = false ∧ encrypted_files.all pe = true ∧ c = flash_cmd a) := by
  by_cases he : a.encrypt_only = true
  · simp [step_flash, he] at hc
    exact Or.inl hc
  · have he' : a.encrypt_only = false := by simpa using he
    by_cases ha : encrypted_files.all pe = true
    · by_cases hr : runc (flash_cmd a) = true
      · simp [step_flash, he, ha, hr] at hc
        rcases hc with h | h
        · exact Or.inl h
        · exact Or.inr ⟨he', ha, h⟩
      · simp [step_flash, he, ha, hr] at hc
        rcases hc with h | h
        · exact Or.inl h
        · exact Or.inr ⟨he', ha, h⟩
    · simp [step_flash, he, ha] at hc
      exact Or.inl hc

lemma step_encrypt_mem (runc : Cmd → Bool) (pe : String → Bool) (a : Args)
    (tr : List Cmd) (c : Cmd) (hc : c ∈ (step_encrypt runc pe a tr).trace) :
    c ∈ tr
  ∨ (a.flash_only = false
      ∧ ∃ t ∈ encryption_tasks a, c = encrypt_flash_data_cmd a t.1 t.2.1 t.2.2.1)
  ∨ (a.encrypt_only = false ∧ encrypted_files.all pe = true ∧ c = flash_cmd a) := by
  by_cases hf : a.flash_only = true
  · simp only [step_encrypt] at hc
    rw [if_pos hf] at hc
    rcases step_flash_mem _ _ _ _ _ hc with h | h
    · exact Or.inl h
    · exact Or.inr (Or.inr h)
  · have hf' : a.flash_only = false := by simpa using hf
    by_cases hl : (encrypt_loop runc a (encryption_tasks a)).2 = true
    · simp [step_encrypt, hf, hl] at hc
      rcases step_flash_mem _ _ _ _ _ hc with h | h
      · rcases List.mem_append.1 h with h | h
        · exact Or.inl h
        · exact Or.inr (Or.inl ⟨hf', encrypt_loop_mem _ _ _ _ h⟩)
      · exact Or.inr (Or.inr h)
    · simp [step_encrypt, hf, hl] at hc
      rcases hc with h | h
      · exact Or.inl h
      · exact Or.inr (Or.inl ⟨hf', encrypt_loop_mem _ _ _ _ h⟩)

lemma step_efuse_mem (runc : Cmd → Bool) (pe : String → Bool) (a : Args)
    (tr : List Cmd) (c : Cmd) (hc : c ∈ (step_efuse runc pe a tr).trace) :
    c ∈ tr
  ∨ (a.skip_efuse = false ∧ a.encrypt_only = false ∧ a.flash_only = false
      ∧ c ∈ efuse_cmds a)
  ∨ (a.flash_only = false
      ∧ ∃ t ∈ encryption_tasks a, c = encrypt_flash_data_cmd a t.1 t.2.1 t.2.2.1)
  ∨ (a.encrypt_only = false ∧ encrypted_files.all pe = true ∧ c = flash_cmd a) := by
  by_cases h : (!a.skip_efuse && !a.encrypt_only && !a.flash_only) = true
  · have hflags : a.skip_efuse = false ∧ a.encrypt_only = false
        ∧ a.flash_only = false := by
      have h2 : (a.skip_efuse = false ∧ a.encrypt_only = false)
          ∧ a.flash_only = false := by simpa using h
      exact ⟨h2.1.1, h2.1.2, h2.2⟩
    simp only [step_efuse] at hc
    rw [if_pos h] at hc
    rcases step_encrypt_mem _ _ _ _ _ hc with h1 | h1 | h1
    · rcases List.mem_append.1 h1 with h2 | h2
      · exact Or.inl h2
      · exact Or.inr (Or.inl ⟨hflags.1, hflags.2.1, hflags.2.2, h2⟩)
    · exact Or.inr (Or.inr (Or.inl h1))
    · exact Or.inr (Or.inr (Or.inr h1))
  · simp only [step_efuse] at hc
    rw [if_neg h] at hc
    rcases step_encrypt_mem _ _ _ _ _ hc with h1 | h1 | h1
    · exact Or.inl h1
    · exact Or.inr (Or.inr (Or.inl h1))
    · exact Or.inr (Or.inr (Or.inr h1))

lemma step_keygen_mem (runc : Cmd → Bool) (pe : String → Bool) (a : Args)
    (c : Cmd) (hc : c ∈ (step_keygen runc pe a).trace) :
    (a.flash_only = false ∧ c = generate_key_cmd a)
  ∨ (a.skip_efuse = false ∧ a.encrypt_only = false ∧ a.flash_only = false
      ∧ c ∈ efuse_cmds a)
  ∨ (a.flash_only = false
      ∧ ∃ t ∈ encryption_tasks a, c = encrypt_flash_data_cmd a t.1 t.2.1 t.2.2.1)
  ∨ (a.encrypt_only = false ∧ encrypted_files.all pe = true ∧ c = flash_cmd a) := by
  have dispatch : ∀ tr : List Cmd, c ∈ (step_efuse runc pe a tr).trace →
      c ∈ tr
    ∨ (a.skip_efuse = false ∧ a.encrypt_only = false ∧ a.flash_only = false
        ∧ c ∈ efuse_cmds a)
    ∨ (a.flash_only = false
        ∧ ∃ t ∈ encryption_tasks a, c = encrypt_flash_data_cmd a t.1 t.2.1 t.2.2.1)
    ∨ (a.encrypt_only = false ∧ encrypted_files.all pe = true ∧ c = flash_cmd a) :=
    fun tr h => step_efuse_mem runc pe a tr c h
  by_cases hf : a.flash_only = true
  · simp only [step_keygen] at hc
    rw [if_pos hf] at hc
    rcases dispatch _ hc with h1 | h1 | h1 | h1
    · simp at h1
    · exact Or.inr (Or.inl h1)
    · exact Or.inr (Or.inr (Or.inl h1))
    · exact Or.inr (Or.inr (Or.inr h1))
  · have hf' : a.flash_only = false := by simpa using hf
    by_cases hk : pe a.key_file = true
    · by_cases hs : source_files_exist pe a = true
      · simp [step_keygen, hf, hk, hs] at hc
        rcases dispatch _ hc with h1 | h1 | h1 | h1
        · simp at h1
        · exact Or.inr (Or.inl h1)
        · exact Or.inr (Or.inr (Or.inl h1))
        · exact Or.inr (Or.inr (Or.inr h1))
      · simp [step_keygen, hf, hk, hs] at hc
    · by_cases hg : runc (generate_key_cmd a) = true
      · by_cases hs : source_files_exist pe a = true
        · simp [step_keygen, hf, hk, hg, hs] at hc
          rcases dispatch _ hc with h1 | h1 | h1 | h1
          · exact Or.inl ⟨hf', List.mem_singleton.1 h1⟩
          · exact Or.inr (Or.inl h1)
          · exact Or.inr (Or.inr (Or.inl h1))
          · exact Or.inr (Or.inr (Or.inr h1))
        · simp [step_keygen, hf, hk, hg, hs] at hc
          exact Or.inl ⟨hf', hc⟩
      · simp [step_keygen, hf, hk, hg] at hc
        exact Or.inl ⟨hf', hc⟩

lemma main_run_mem (sys_executable : String) (is_windows : Bool) (w : World)
    (a : Args) (c : Cmd)
    (hc : c ∈ (main_run sys_executable is_windows w a).trace) :
    (a.flash_only = false ∧ c = generate_key_cmd a)
  ∨ (a.skip_efuse = false ∧ a.encrypt_only = false ∧ a.flash_only = false
      ∧ c ∈ efuse_cmds a)
  ∨ (a.flash_only = false
      ∧ ∃ t ∈ encryption_tasks a, c = encrypt_flash_data_cmd a t.1 t.2.1 t.2.2.1)
  ∨ (a.encrypt_only = false ∧ encrypted_files.all w.path_exists = true
      ∧ c = flash_cmd a) := by
  by_cases hb : w.path_exists a.build_dir = true
  · simp only [main_run] at hc
    rw [if_pos hb] at hc
    exact step_keygen_mem _ _ _ _ hc
  · simp [main_run, hb] at hc

lemma fix_espsecure (sys_executable : String) (is_windows : Bool)
    (rest : List String) :
    fix_esp_command sys_executable is_windows ("espsecure.py" :: rest)
      = sys_executable :: "-m" :: "espsecure" :: rest := by
  simp [fix_esp_command, esp_tools, List.lookup]

lemma fix_espefuse (sys_executable : String) (is_windows : Bool)
    (rest : List String) :
    fix_esp_command sys_executable is_windows ("espefuse.py" :: rest)
      = sys_executable :: "-m" :: "espefuse" :: rest := by
  simp [fix_esp_command, esp_tools, List.lookup]

lemma fix_esptool (sys_executable : String) (is_windows : Bool)
    (rest : List String) :
    fix_esp_command sys_executable is_windows ("esptool.py" :: rest)
      = sys_executable :: "-m" :: "esptool" :: rest := by
  simp [fix_esp_command, esp_tools, List.lookup]

lemma efuse_cmds_shape (a : Args) (c : Cmd) (hc : c ∈ efuse_cmds a) :
    ∃ rest, c = "espefuse.py" :: rest := by
  by_cases hd : a.development = true <;>
    simp [efuse_cmds, hd, burn_key_cmd, burn_flash_crypt_cnt_cmd,
      burn_flash_crypt_config_cmd, write_protect_cmd] at hc <;>
    rcases hc with rfl | rfl | rfl | rfl <;> exact ⟨_, rfl⟩

/-- C2: every external command the script ever runs is an invocation of one
of exactly the three vendor tools espsecure.py, espefuse.py, esptool.py, and
`fix_esp_command` rewrites it to the equivalent `python -m` module form; no
other program is ever invoked. -/
theorem main_run_only_vendor_tools (sys_executable : String) (is_windows : Bool)
    (w : World) (a : Args) (c : Cmd)
    (hc : c ∈ (main_run sys_executable is_windows w a).trace) :
    ∃ tool module_name rest, c = tool :: rest ∧ (tool, module_name) ∈ esp_tools
      ∧ fix_esp_command sys_executable is_windows c
          = sys_executable :: "-m" :: module_name :: rest := by
  rcases main_run_mem _ _ _ _ _ hc with ⟨_, rfl⟩ | ⟨_, _, _, h⟩ | ⟨_, t, ht, rfl⟩
    | ⟨_, _, rfl⟩
  · exact ⟨"espsecure.py", "espsecure",
      ["generate_flash_encryption_key", a.key_file], rfl, by simp [esp_tools],
      fix_espsecure _ _ _⟩
  · obtain ⟨rest, rfl⟩ := efuse_cmds_shape a c h
    exact ⟨"espefuse.py", "espefuse", rest, rfl, by simp [esp_tools],
      fix_espefuse _ _ _⟩
  · exact ⟨"espsecure.py", "espsecure", _, rfl, by simp [esp_tools],
      fix_espsecure _ _ _⟩
  · exact ⟨"esptool.py", "esptool", _, rfl, by simp [esp_tools],
      fix_esptool _ _ _⟩

/-- Witness for C2: the flashing command of a concrete complete run. -/
theorem main_run_only_vendor_tools_witness :
    ∃ tool module_name rest, flash_cmd args_ex = tool :: rest
      ∧ (tool, module_name) ∈ esp_tools
      ∧ fix_esp_command "python" false (flash_cmd args_ex)
          = "python" :: "-m" :: module_name :: rest :=
  main_run_only_vendor_tools "python" false w_ok args_ex (flash_cmd args_ex)
    (by decide)

/-- C3: the CLI flags skip steps: with `--flash-only` no espsecure.py command
is invoked; with `--encrypt-only` no esptool.py command is invoked; with any
of `--skip-efuse`, `--encrypt-only`, `--flash-only` no espefuse.py command is
invoked. -/
theorem main_run_flag_skips (sys_executable : String) (is_windows : Bool)
    (w : World) (a : Args) :
    (a.flash_only = true →
      ∀ c ∈ (main_run sys_executable is_windows w a).trace,
        c.head? ≠ some "espsecure.py")
  ∧ (a.encrypt_only = true →
      ∀ c ∈ (main_run sys_executable is_windows w a).trace,
        c.head? ≠ some "esptool.py")
  ∧ (a.skip_efuse = true ∨ a.encrypt_only = true ∨ a.flash_only = true →
      ∀ c ∈ (main_run sys_executable is_windows w a).trace,
        c.head? ≠ some "espefuse.py") := by
  refine ⟨?_, ?_, ?_⟩
  · intro hf c hc
    rcases main_run_mem _ _ _ _ _ hc with ⟨h, _⟩ | ⟨_, _, h, _⟩ | ⟨h, _⟩
      | ⟨_, _, rfl⟩
    · rw [h] at hf; simp at hf
    · rw [h] at hf; simp at hf
    · rw [h] at hf; simp at hf
    · simp [flash_cmd]
  · intro he c hc
    rcases main_run_mem _ _ _ _ _ hc with ⟨_, rfl⟩ | ⟨_, h, _, _⟩
      | ⟨_, t, ht, rfl⟩ | ⟨h, _, _⟩
    · simp [generate_key_cmd]
    · rw [h] at he; simp at he
    · simp [encrypt_flash_data_cmd]
    · rw [h] at he; simp at he
  · intro hor c hc
    rcases main_run_mem _ _ _ _ _ hc with ⟨_, rfl⟩ | ⟨h1, h2, h3, _⟩
      | ⟨_, t, ht, rfl⟩ | ⟨_, _, rfl⟩
    · simp [generate_key_cmd]
    · rcases hor with h | h | h
      · rw [h1] at h; simp at h
      · rw [h2] at h; simp at h
      · rw [h3] at h; simp at h
    · simp [encrypt_flash_data_cmd]
    · simp [flash_cmd]

/-- Witness for C3: a concrete `--flash-only` run issues the flashing command
and it is not an espsecure.py invocation. -/
theorem main_run_flag_skips_witness :
    (flash_cmd args_flash_only).head? ≠ some "espsecure.py" :=
  (main_run_flag_skips "python" false w_ok args_flash_only).1 rfl
    (flash_cmd args_flash_only) (by decide)

lemma step_flash_exit_cases (runc : Cmd → Bool) (pe : String → Bool)
    (a : Args) (tr : List Cmd) :
    (step_flash runc pe a tr).exit = none
  ∨ (step_flash runc pe a tr).exit = some 1 := by
  unfold step_flash
  split_ifs <;> simp

lemma step_encrypt_exit_cases (runc : Cmd → Bool) (pe : String → Bool)
    (a : Args) (tr : List Cmd) :
    (step_encrypt runc pe a tr).exit = none
  ∨ (step_encrypt runc pe a tr).exit = some 1 := by
  by_cases hf : a.flash_only = true
  · simp only [step_encrypt]
    rw [if_pos hf]
    exact step_flash_exit_cases _ _ _ _
  · by_cases hl : (encrypt_loop runc a (encryption_tasks a)).2 = true
    · simp only [step_encrypt]
      rw [if_neg hf, if_pos hl]
      exact step_flash_exit_cases _ _ _ _
    · simp [step_encrypt, hf, hl]

lemma step_efuse_exit_cases (runc : Cmd → Bool) (pe : String → Bool)
    (a : Args) (tr : List Cmd) :
    (step_efuse runc pe a tr).exit = none
  ∨ (step_efuse runc pe a tr).exit = some 1 := by
  unfold step_efuse
  split_ifs <;> apply step_encrypt_exit_cases

lemma step_keygen_exit_cases (runc : Cmd → Bool) (pe : String → Bool)
    (a : Args) :
    (step_keygen runc pe a).exit = none
  ∨ (step_keygen runc pe a).exit = some 1 := by
  unfold step_keygen
  split_ifs <;> first | apply step_efuse_exit_cases | simp

lemma main_run_exit_cases (sys_executable : String) (is_windows : Bool)
    (w : World) (a : Args) :
    (main_run sys_executable is_windows w a).exit = none
  ∨ (main_run sys_executable is_windows w a).exit = some 1 := by
  unfold main_run
  split_ifs <;> first | apply step_keygen_exit_cases | simp

lemma step_flash_exit_none (runc : Cmd → Bool) (pe : String → Bool)
    (a : Args) (tr : List Cmd)
    (h : (step_flash runc pe a tr).exit = none) :
    a.encrypt_only = true
  ∨ (encrypted_files.all pe = true ∧ runc (flash_cmd a) = true) := by
  by_cases he : a.encrypt_only = true
  · exact Or.inl he
  · by_cases ha : encrypted_files.all pe = true
    · by_cases hr : runc (flash_cmd a) = true
      · exact Or.inr ⟨ha, hr⟩
      · simp [step_flash, he, ha, hr] at h
    · simp [step_flash, he, ha] at h

lemma step_encrypt_exit_none (runc : Cmd → Bool) (pe : String → Bool)
    (a : Args) (tr : List Cmd)
    (h : (step_encrypt runc pe a tr).exit = none) :
    (a.flash_only = true ∨ (encrypt_loop runc a (encryption_tasks a)).2 = true)
  ∧ (a.encrypt_only = true
      ∨ (encrypted_files.all pe = true ∧ runc (flash_cmd a) = true)) := by
  by_cases hf : a.flash_only = true
  · simp only [step_encrypt] at h
    rw [if_pos hf] at h
    exact ⟨Or.inl hf, step_flash_exit_none _ _ _ _ h⟩
  · by_cases hl : (encrypt_loop runc a (encryption_tasks a)).2 = true
    · simp only [step_encrypt] at h
      rw [if_neg hf] at h
      simp only [hl, if_true] at h
      exact ⟨Or.inr hl, step_flash_exit_none _ _ _ _ h⟩
    · simp [step_encrypt, hf, hl] at h

lemma step_efuse_exit_none (runc : Cmd → Bool) (pe : String → Bool)
    (a : Args) (tr : List Cmd)
    (h : (step_efuse runc pe a tr).exit = none) :
    (a.flash_only = true ∨ (encrypt_loop runc a (encryption_tasks a)).2 = true)
  ∧ (a.encrypt_only = true
      ∨ (encrypted_files.all pe = true ∧ runc (flash_cmd a) = true)) := by
  by_cases hc : (!a.skip_efuse && !a.encrypt_only && !a.flash_only) = true
  · simp only [step_efuse] at h
    rw [if_pos hc] at h
    exact step_encrypt_exit_none _ _ _ _ h
  · simp only [step_efuse] at h
    rw [if_neg hc] at h
    exact step_encrypt_exit_none _ _ _ _ h

lemma step_keygen_exit_none (runc : Cmd → Bool) (pe : String → Bool)
    (a : Args) (h : (step_keygen runc pe a).exit = none) :
    (a.flash_only = true
      ∨ ((pe a.key_file = true ∨ runc (generate_key_cmd a) = true)
          ∧ source_files_exist pe a = true))
  ∧ (a.flash_only = true ∨ (encrypt_loop runc a (encryption_tasks a)).2 = true)
  ∧ (a.encrypt_only = true
      ∨ (encrypted_files.all pe = true ∧ runc (flash_cmd a) = true)) := by
  by_cases hf : a.flash_only = true
  · simp only [step_keygen] at h
    rw [if_pos hf] at h
    have h2 := step_efuse_exit_none _ _ _ _ h
    exact ⟨Or.inl hf, h2.1, h2.2⟩
  · by_cases hk : pe a.key_file = true
    · by_cases hs : source_files_exist pe a = true
      · simp only [step_keygen] at h
        rw [if_neg hf] at h
        simp only [hk, if_true, hs] at h
        have h2 := step_efuse_exit_none _ _ _ _ h
        exact ⟨Or.inr ⟨Or.inl hk, hs⟩, h2.1, h2.2⟩
      · simp [step_keygen, hf, hk, hs] at h
    · by_cases hg : runc (generate_key_cmd a) = true
      · by_cases hs : source_files_exist pe a = true
        · simp only [step_keygen] at h
          rw [if_neg hf] at h
          simp only [hk, hg, if_true, hs, Bool.false_eq_true, if_false] at h
          have h2 := step_efuse_exit_none _ _ _ _ h
          exact ⟨Or.inr ⟨Or.inr hg, hs⟩, h2.1, h2.2⟩
        · simp [step_keygen, hf, hk, hg, hs] at h
      · simp [step_keygen, hf, hk, hg] at h

lemma main_run_exit_none (sys_executable : String) (is_windows : Bool)
    (w : World) (a : Args)
    (h : (main_run sys_executable is_windows w a).exit = none) :
    w.path_exists a.build_dir = true
  ∧ (a.flash_only = true
      ∨ ((w.path_exists a.key_file = true
          ∨ cmd_ok sys_executable is_windows w (generate_key_cmd a) = true)
          ∧ source_files_exist w.path_exists a = true))
  ∧ (a.flash_only = true
      ∨ (encrypt_loop (cmd_ok sys_executable is_windows w) a
          (encryption_tasks a)).2 = true)
  ∧ (a.encrypt_only = true
      ∨ (encrypted_files.all w.path_exists = true
          ∧ cmd_ok sys_executable is_windows w (flash_cmd a) = true)) := by
  by_cases hb : w.path_exists a.build_dir = true
  · simp only [main_run] at h
    rw [if_pos hb] at h
    exact ⟨hb, step_keygen_exit_none _ _ _ h⟩
  · simp [main_run, hb] at h

/-- C4: in every run without `--flash-only` in which one of the three build
outputs (bootloader.bin, partitions.bin, firmware.bin) is missing, the script
exits with status 1, and the only command it can have issued is the key
generation — no espefuse, no espsecure encrypt, and no esptool command. -/
theorem main_run_missing_source (sys_executable : String) (is_windows : Bool)
    (w : World) (a : Args) (hf : a.flash_only = false)
    (hm : w.path_exists (bootloader_bin a) = false
        ∨ w.path_exists (partitions_bin a) = false
        ∨ w.path_exists (firmware_bin a) = false) :
    (main_run sys_executable is_windows w a).exit = some 1
  ∧ ((main_run sys_executable is_windows w a).trace = []
      ∨ (main_run sys_executable is_windows w a).trace = [generate_key_cmd a]) := by
  have hs : source_files_exist w.path_exists a = false := by
    rcases hm with h | h | h <;> simp [source_files_exist, check_file_exists, h]
  by_cases hb : w.path_exists a.build_dir = true
  · simp only [main_run]
    rw [if_pos hb]
    by_cases hk : w.path_exists a.key_file = true
    · simp [step_keygen, hf, hk, hs]
    · by_cases hg : cmd_ok sys_executable is_windows w (generate_key_cmd a) = true
      · simp [step_keygen, hf, hk, hg, hs]
      · simp [step_keygen, hf, hk, hg]
  · simp [main_run, hb]

/-- Witness for C4: concrete run with the bootloader build output missing. -/
theorem main_run_missing_source_witness :
    (main_run "python" false w_no_src args_ex).exit = some 1 :=
  (main_run_missing_source "python" false w_no_src args_ex rfl
    (Or.inl (by decide))).1

/-- C5: in every run without `--encrypt-only` in which one of the three
encrypted output files is missing, the script exits with status 1 and never
invokes esptool. -/
theorem main_run_missing_encrypted (sys_executable : String) (is_windows : Bool)
    (w : World) (a : Args) (he : a.encrypt_only = false)
    (hm : w.path_exists encrypted_bootloader = false
        ∨ w.path_exists encrypted_partitions = false
        ∨ w.path_exists encrypted_firmware = false) :
    (main_run sys_executable is_windows w a).exit = some 1
  ∧ ∀ c ∈ (main_run sys_executable is_windows w a).trace,
      c.head? ≠ some "esptool.py" := by
  have hall : encrypted_files.all w.path_exists = false := by
    rcases hm with h | h | h <;> simp [encrypted_files, h]
  constructor
  · rcases main_run_exit_cases sys_executable is_windows w a with h | h
    · have h2 := (main_run_exit_none sys_executable is_windows w a h).2.2.2
      rcases h2 with h3 | h3
      · rw [he] at h3; simp at h3
      · obtain ⟨h4, _⟩ := h3
        rw [hall] at h4
        simp at h4
    · exact h
  · intro c hc
    rcases main_run_mem _ _ _ _ _ hc with ⟨_, rfl⟩ | ⟨_, _, _, h⟩
      | ⟨_, t, ht, rfl⟩ | ⟨_, h2, _⟩
    · simp [generate_key_cmd]
    · obtain ⟨rest, rfl⟩ := efuse_cmds_shape a c h
      simp
    · simp [encrypt_flash_data_cmd]
    · rw [hall] at h2
      simp at h2

/-- Witness for C5: concrete run with encrypted_bootloader.bin missing. -/
theorem main_run_missing_encrypted_witness :
    (main_run "python" false w_no_enc args_ex).exit = some 1 :=
  (main_run_missing_encrypted "python" false w_no_enc args_ex rfl
    (Or.inl (by decide))).1

/-- C1: a full run — build directory present, key file absent, all build
outputs and the encrypted outputs present, no skip flag set, every command
succeeding — invokes the external commands as a fixed sequence in order:
key generation; eFuse burning (burn_key, then FLASH_CRYPT_CNT, then
FLASH_CRYPT_CONFIG, then in production mode the DIS_CACHE write protect);
encryption of bootloader, partition table and firmware in that order; then a
single flashing command; and the script completes normally. -/
theorem main_run_full_sequence (sys_executable : String) (is_windows : Bool)
    (w : World) (a : Args)
    (hb : w.path_exists a.build_dir = true)
    (hk : w.path_exists a.key_file = false)
    (hsrc : w.path_exists (bootloader_bin a) = true
        ∧ w.path_exists (partitions_bin a) = true
        ∧ w.path_exists (firmware_bin a) = true)
    (henc : encrypted_files.all w.path_exists = true)
    (hflags : a.skip_efuse = false ∧ a.encrypt_only = false ∧ a.flash_only = false)
    (hok : ∀ c, cmd_ok sys_executable is_windows w c = true) :
    (main_run sys_executable is_windows w a).trace
      = [generate_key_cmd a, burn_key_cmd a, burn_flash_crypt_cnt_cmd a,
         burn_flash_crypt_config_cmd a]
        ++ (if a.development then [] else [write_protect_cmd a])
        ++ [encrypt_flash_data_cmd a (bootloader_bin a) encrypted_bootloader "0x1000",
            encrypt_flash_data_cmd a (partitions_bin a) encrypted_partitions "0x8000",
            encrypt_flash_data_cmd a (firmware_bin a) encrypted_firmware "0x10000",
            flash_cmd a]
  ∧ (main_run sys_executable is_windows w a).exit = none := by
  obtain ⟨hsk, hen, hfl⟩ := hflags
  have hs : source_files_exist w.path_exists a = true := by
    simp [source_files_exist, check_file_exists, hsrc.1, hsrc.2.1, hsrc.2.2]
  have hcond : (!a.skip_efuse && !a.encrypt_only && !a.flash_only) = true := by
    simp [hsk, hen, hfl]
  have hloop : encrypt_loop (cmd_ok sys_executable is_windows w) a
      (encryption_tasks a)
      = ([encrypt_flash_data_cmd a (bootloader_bin a) encrypted_bootloader "0x1000",
          encrypt_flash_data_cmd a (partitions_bin a) encrypted_partitions "0x8000",
          encrypt_flash_data_cmd a (firmware_bin a) encrypted_firmware "0x10000"],
         true) := by
    simp [encryption_tasks, encrypt_loop, hok]
  constructor <;>
    simp [main_run, hb, step_keygen, hsk, hen, hfl, hk, hok, hs, step_efuse,
      hcond, step_encrypt, hloop, step_flash, henc, efuse_cmds]

/-- Witness for C1: concrete full production-mode run. -/
theorem main_run_full_sequence_witness :
    (main_run "python" false w_ok args_ex).trace
      = [generate_key_cmd args_ex, burn_key_cmd args_ex,
         burn_flash_crypt_cnt_cmd args_ex, burn_flash_crypt_config_cmd args_ex]
        ++ (if args_ex.development then [] else [write_protect_cmd args_ex])
        ++ [encrypt_flash_data_cmd args_ex (bootloader_bin args_ex)
              encrypted_bootloader "0x1000",
            encrypt_flash_data_cmd args_ex (partitions_bin args_ex)
              encrypted_partitions "0x8000",
            encrypt_flash_data_cmd args_ex (firmware_bin args_ex)
              encrypted_firmware "0x10000",
            flash_cmd args_ex]
  ∧ (main_run "python" false w_ok args_ex).exit = none :=
  main_run_full_sequence "python" false w_ok args_ex (by decide) (by decide)
    ⟨by decide, by decide, by decide⟩ (by decide) ⟨rfl, rfl, rfl⟩ (fun _ => rfl)

lemma encrypt_loop_congr (runc1 runc2 : Cmd → Bool) (a : Args)
    (hag : ∀ c : Cmd, c.head? ≠ some "espefuse.py" → runc1 c = runc2 c)
    (ts : List (String × String × String × String)) :
    encrypt_loop runc1 a ts = encrypt_loop runc2 a ts := by
  induction ts with
  | nil => rfl
  | cons t rest ih =>
    obtain ⟨s, o, adr, d⟩ := t
    have he : runc1 (encrypt_flash_data_cmd a s o adr)
        = runc2 (encrypt_flash_data_cmd a s o adr) :=
      hag _ (by simp [encrypt_flash_data_cmd])
    simp only [encrypt_loop, he, ih]

lemma step_flash_congr (runc1 runc2 : Cmd → Bool) (pe : String → Bool)
    (a : Args) (hag : ∀ c : Cmd, c.head? ≠ some "espefuse.py" → runc1 c = runc2 c)
    (tr : List Cmd) :
    step_flash runc1 pe a tr = step_flash runc2 pe a tr := by
  have hfl : runc1 (flash_cmd a) = runc2 (flash_cmd a) :=
    hag _ (by simp [flash_cmd])
  simp only [step_flash, hfl]

lemma step_encrypt_congr (runc1 runc2 : Cmd → Bool) (pe : String → Bool)
    (a : Args) (hag : ∀ c : Cmd, c.head? ≠ some "espefuse.py" → runc1 c = runc2 c)
    (tr : List Cmd) :
    step_encrypt runc1 pe a tr = step_encrypt runc2 pe a tr := by
  simp only [step_encrypt, encrypt_loop_congr runc1 runc2 a hag,
    step_flash_congr runc1 runc2 pe a hag]

lemma step_efuse_congr (runc1 runc2 : Cmd → Bool) (pe : String → Bool)
    (a : Args) (hag : ∀ c : Cmd, c.head? ≠ some "espefuse.py" → runc1 c = runc2 c)
    (tr : List Cmd) :
    step_efuse runc1 pe a tr = step_efuse runc2 pe a tr := by
  simp only [step_efuse, step_encrypt_congr runc1 runc2 pe a hag]

lemma step_keygen_congr (runc1 runc2 : Cmd → Bool) (pe : String → Bool)
    (a : Args) (hag : ∀ c : Cmd, c.head? ≠ some "espefuse.py" → runc1 c = runc2 c) :
    step_keygen runc1 pe a = step_keygen runc2 pe a := by
  have hg : runc1 (generate_key_cmd a) = runc2 (generate_key_cmd a) :=
    hag _ (by simp [generate_key_cmd])
  simp only [step_keygen, hg, step_efuse_congr runc1 runc2 pe a hag]

lemma encrypt_loop_all_ok (runc : Cmd → Bool) (a : Args)
    (ts : List (String × String × String × String))
    (h : (encrypt_loop runc a ts).2 = true) :
    ∀ t ∈ ts, runc (encrypt_flash_data_cmd a t.1 t.2.1 t.2.2.1) = true := by
  induction ts with
  | nil => simp
  | cons t rest ih =>
    obtain ⟨s, o, adr, d⟩ := t
    by_cases hr : runc (encrypt_flash_data_cmd a s o adr) = true
    · simp only [encrypt_loop] at h
      rw [if_pos hr] at h
      have h2 : (encrypt_loop runc a rest).2 = true := h
      intro t ht
      rcases List.mem_cons.1 ht with rfl | ht
      · exact hr
      · exact ih h2 t ht
    · simp only [encrypt_loop] at h
      rw [if_neg hr] at h
      simp at h

/-- C8: failure of any eFuse-burning command never changes the run — the
result of `main` is invariant under changing the outcomes of espefuse.py
commands — whereas failure of key generation, of an encryption command, or
of the flashing command makes the script exit with status 1. -/
theorem main_run_failure_modes (sys_executable : String) (is_windows : Bool)
    (a : Args) :
    (∀ w1 w2 : World, w1.path_exists = w2.path_exists →
      (∀ c : Cmd, c.head? ≠ some "espefuse.py" →
        cmd_ok sys_executable is_windows w1 c
          = cmd_ok sys_executable is_windows w2 c) →
      main_run sys_executable is_windows w1 a
        = main_run sys_executable is_windows w2 a)
  ∧ (∀ w : World, a.flash_only = false →
      w.path_exists a.build_dir = true →
      w.path_exists a.key_file = false →
      cmd_ok sys_executable is_windows w (generate_key_cmd a) = false →
      main_run sys_executable is_windows w a = ⟨[generate_key_cmd a], some 1⟩)
  ∧ (∀ w : World, a.flash_only = false →
      (∃ t ∈ encryption_tasks a,
        cmd_ok sys_executable is_windows w
          (encrypt_flash_data_cmd a t.1 t.2.1 t.2.2.1) = false) →
      (main_run sys_executable is_windows w a).exit = some 1)
  ∧ (∀ w : World, a.encrypt_only = false →
      cmd_ok sys_executable is_windows w (flash_cmd a) = false →
      (main_run sys_executable is_windows w a).exit = some 1) := by
  refine ⟨?_, ?_, ?_, ?_⟩
  · intro w1 w2 hpe hag
    simp only [main_run, hpe,
      step_keygen_congr (cmd_ok sys_executable is_windows w1)
        (cmd_ok sys_executable is_windows w2) w2.path_exists a hag]
  · intro w hf hb hk hg
    simp [main_run, hb, step_keygen, hf, hk, hg]
  · intro w hf hfail
    rcases main_run_exit_cases sys_executable is_windows w a with h | h
    · have h2 := (main_run_exit_none sys_executable is_windows w a h).2.2.1
      rcases h2 with h3 | h3
      · rw [hf] at h3
        simp at h3
      · obtain ⟨t, ht, htf⟩ := hfail
        have := encrypt_loop_all_ok _ _ _ h3 t ht
        rw [htf] at this
        simp at this
    · exact h
  · intro w he hfail
    rcases main_run_exit_cases sys_executable is_windows w a with h | h
    · have h2 := (main_run_exit_none sys_executable is_windows w a h).2.2.2
      rcases h2 with h3 | ⟨_, h3⟩
      · rw [he] at h3
        simp at h3
      · rw [hfail] at h3
        simp at h3
    · exact h

/-- Witness for C8: in a concrete run where every command fails, key
generation failing makes the script exit 1 immediately. -/
theorem main_run_failure_modes_witness :
    main_run "python" false w_fail args_ex = ⟨[generate_key_cmd args_ex], some 1⟩ :=
  (main_run_failure_modes "python" false args_ex).2.1 w_fail rfl (by decide)
    (by decide) (by decide)

lemma encrypt_loop_heads (runc : Cmd → Bool) (a : Args)
    (ts : List (String × String × String × String)) :
    ∀ c ∈ (encrypt_loop runc a ts).1, c.head? = some "espsecure.py" := by
  intro c hc
  obtain ⟨t, ht, rfl⟩ := encrypt_loop_mem runc a ts c hc
  simp [encrypt_flash_data_cmd]

lemma step_flash_trace_heads (runc : Cmd → Bool) (pe : String → Bool)
    (a : Args) (tr : List Cmd) :
    ∃ s, (step_flash runc pe a tr).trace = tr ++ s
      ∧ ∀ c ∈ s, c.head? = some "esptool.py" := by
  by_cases he : a.encrypt_only = true
  · exact ⟨[], by simp [step_flash, he], by simp⟩
  · by_cases ha : encrypted_files.all pe = true
    · by_cases hr : runc (flash_cmd a) = true
      · exact ⟨[flash_cmd a], by simp [step_flash, he, ha, hr],
          by simp [flash_cmd]⟩
      · exact ⟨[flash_cmd a], by simp [step_flash, he, ha, hr],
          by simp [flash_cmd]⟩
    · exact ⟨[], by simp [step_flash, he, ha], by simp⟩

lemma step_encrypt_trace_heads (runc : Cmd → Bool) (pe : String → Bool)
    (a : Args) (tr : List Cmd) :
    ∃ s, (step_encrypt runc pe a tr).trace = tr ++ s
      ∧ ∀ c ∈ s, c.head? = some "espsecure.py" ∨ c.head? = some "esptool.py" := by
  by_cases hf : a.flash_only = true
  · obtain ⟨s, hs, hh⟩ := step_flash_trace_heads runc pe a tr
    refine ⟨s, ?_, fun c hc => Or.inr (hh c hc)⟩
    simp only [step_encrypt]
    rw [if_pos hf]
    exact hs
  · by_cases hl : (encrypt_loop runc a (encryption_tasks a)).2 = true
    · obtain ⟨s, hs, hh⟩ := step_flash_trace_heads runc pe a
        (tr ++ (encrypt_loop runc a (encryption_tasks a)).1)
      refine ⟨(encrypt_loop runc a (encryption_tasks a)).1 ++ s, ?_, ?_⟩
      · simp only [step_encrypt]
        rw [if_neg hf, if_pos hl, hs, List.append_assoc]
      · intro c hc
        rcases List.mem_append.1 hc with h | h
        · exact Or.inl (encrypt_loop_heads _ _ _ c h)
        · exact Or.inr (hh c h)
    · refine ⟨(encrypt_loop runc a (encryption_tasks a)).1, ?_,
        fun c hc => Or.inl (encrypt_loop_heads _ _ _ c hc)⟩
      simp [step_encrypt, hf, hl]

/-- C9: whenever the eFuse-burning phase runs, FLASH_CRYPT_CNT is burned to
"1" with `--development` and to "127" otherwise, FLASH_CRYPT_CONFIG is
always burned to "0xF", and the DIS_CACHE write-protect command is issued
exactly when `--development` is not given. -/
theorem main_run_efuse_values (sys_executable : String) (is_windows : Bool)
    (w : World) (a : Args)
    (hflags : a.skip_efuse = false ∧ a.encrypt_only = false ∧ a.flash_only = false)
    (hb : w.path_exists a.build_dir = true)
    (hsrc : source_files_exist w.path_exists a = true)
    (hkey : w.path_exists a.key_file = true
        ∨ cmd_ok sys_executable is_windows w (generate_key_cmd a) = true) :
    (["espefuse.py", "--port", a.port, "--do-not-confirm", "--chip", a.chip,
      "burn_efuse", "FLASH_CRYPT_CNT", if a.development then "1" else "127"]
        ∈ (main_run sys_executable is_windows w a).trace)
  ∧ (["espefuse.py", "--port", a.port, "--do-not-confirm", "--chip", a.chip,
      "burn_efuse", "FLASH_CRYPT_CONFIG", "0xF"]
        ∈ (main_run sys_executable is_windows w a).trace)
  ∧ (write_protect_cmd a ∈ (main_run sys_executable is_windows w a).trace
      ↔ a.development = false) := by
  obtain ⟨hsk, hen, hfl⟩ := hflags
  have hnf : ¬a.flash_only = true := by simp [hfl]
  have hcond : (!a.skip_efuse && !a.encrypt_only && !a.flash_only) = true := by
    simp [hsk, hen, hfl]
  have hmain : ∃ tr0, (tr0 = [] ∨ tr0 = [generate_key_cmd a])
      ∧ main_run sys_executable is_windows w a
        = step_encrypt (cmd_ok sys_executable is_windows w) w.path_exists a
            (tr0 ++ efuse_cmds a) := by
    by_cases hk : w.path_exists a.key_file = true
    · refine ⟨[], Or.inl rfl, ?_⟩
      simp only [main_run]
      rw [if_pos hb]
      simp only [step_keygen]
      rw [if_neg hnf, if_pos hk, if_pos hsrc]
      simp [step_efuse, hcond]
    · rcases hkey with hk2 | hg
      · exact absurd hk2 hk
      · refine ⟨[generate_key_cmd a], Or.inr rfl, ?_⟩
        simp only [main_run]
        rw [if_pos hb]
        simp only [step_keygen]
        rw [if_neg hnf, if_neg hk, if_pos hg, if_pos hsrc]
        simp [step_efuse, hcond]
  obtain ⟨tr0, htr0, hm⟩ := hmain
  obtain ⟨sfx, hsfx, hheads⟩ := step_encrypt_trace_heads
    (cmd_ok sys_executable is_windows w) w.path_exists a (tr0 ++ efuse_cmds a)
  rw [hm, hsfx]
  refine ⟨?_, ?_, ?_⟩
  · refine List.mem_append.2 (Or.inl (List.mem_append.2 (Or.inr ?_)))
    simp [efuse_cmds, burn_flash_crypt_cnt_cmd, crypt_cnt]
  · refine List.mem_append.2 (Or.inl (List.mem_append.2 (Or.inr ?_)))
    simp [efuse_cmds, burn_flash_crypt_config_cmd]
  · constructor
    · intro hwp
      by_contra hdev
      have hdev2 : a.development = true := by
        revert hdev
        cases a.development <;> simp
      rcases List.mem_append.1 hwp with h | h
      · rcases List.mem_append.1 h with h | h
        · rcases htr0 with rfl | rfl
          · simp at h
          · rw [List.mem_singleton] at h
            simp [write_protect_cmd, generate_key_cmd] at h
        · simp [efuse_cmds, hdev2, write_protect_cmd, burn_key_cmd,
            burn_flash_crypt_cnt_cmd, burn_flash_crypt_config_cmd,
            crypt_cnt] at h
      · have h2 := hheads _ h
        simp [write_protect_cmd] at h2
    · intro hdev
      refine List.mem_append.2 (Or.inl (List.mem_append.2 (Or.inr ?_)))
      simp [efuse_cmds, hdev]

/-- Witness for C9: the concrete production-mode run burns FLASH_CRYPT_CNT
to 127. -/
theorem main_run_efuse_values_witness :
    ["espefuse.py", "--port", "COM1", "--do-not-confirm", "--chip", "esp32",
     "burn_efuse", "FLASH_CRYPT_CNT", "127"]
      ∈ (main_run "python" false w_ok args_ex).trace := by
  have h := (main_run_efuse_values "python" false w_ok args_ex ⟨rfl, rfl, rfl⟩
    (by decide) (by decide) (Or.inr rfl)).1
  simpa using h

/-- C6: `fix_esp_command` rewrites a command whose first element is one of
the three ESP tool scripts into `[sys.executable, "-m", module]` followed by
the original arguments; any other non-empty command on a non-Windows
platform, and the empty command, are returned unchanged. -/
theorem fix_esp_command_spec (sys_executable : String) (is_windows : Bool) :
    (∀ tool module_name rest, (tool, module_name) ∈ esp_tools →
      fix_esp_command sys_executable is_windows (tool :: rest)
        = sys_executable :: "-m" :: module_name :: rest)
  ∧ (∀ c rest, is_windows = false → c ∉ List.map Prod.fst esp_tools →
      fix_esp_command sys_executable is_windows (c :: rest) = c :: rest)
  ∧ fix_esp_command sys_executable is_windows [] = [] := by
  refine ⟨?_, ?_, rfl⟩
  · intro tool module_name rest h
    simp only [esp_tools, List.mem_cons, List.not_mem_nil, or_false,
      Prod.mk.injEq] at h
    rcases h with ⟨rfl, rfl⟩ | ⟨rfl, rfl⟩ | ⟨rfl, rfl⟩ <;>
      simp [fix_esp_command, esp_tools, List.lookup]
  · intro c rest hw hc
    simp only [esp_tools, List.map_cons, List.map_nil, List.mem_cons,
      List.not_mem_nil, or_false, not_or] at hc
    obtain ⟨h1, h2, h3⟩ := hc
    have b1 : (c == "espsecure.py") = false := beq_eq_false_iff_ne.mpr h1
    have b2 : (c == "espefuse.py") = false := beq_eq_false_iff_ne.mpr h2
    have b3 : (c == "esptool.py") = false := beq_eq_false_iff_ne.mpr h3
    simp [fix_esp_command, esp_tools, List.lookup, b1, b2, b3, hw]

/-- Witness for C6 at concrete inputs. -/
theorem fix_esp_command_spec_witness :
    fix_esp_command "python" false
        ["espsecure.py", "generate_flash_encryption_key", "key.bin"]
      = ["python", "-m", "espsecure", "generate_flash_encryption_key", "key.bin"]
  ∧ fix_esp_command "python" false ["ls", "-l"] = ["ls", "-l"] :=
  ⟨(fix_esp_command_spec "python" false).1 "espsecure.py" "espsecure"
      ["generate_flash_encryption_key", "key.bin"] (by decide),
   (fix_esp_command_spec "python" false).2.1 "ls" ["-l"] rfl (by decide)⟩

/-- C7: `run_command` returns `True` exactly when the subprocess completes
with exit code `0`; a nonzero exit code (`CalledProcessError`) and a missing
executable (`FileNotFoundError`) are both caught and yield `False`. -/
theorem run_command_spec :
    (∀ o, run_command o = true ↔ o = ProcOutcome.completed 0)
  ∧ (∀ n, run_command (ProcOutcome.completed (n + 1)) = false)
  ∧ run_command ProcOutcome.notFound = false := by
  refine ⟨?_, fun n => by simp [run_command], rfl⟩
  intro o
  cases o with
  | completed n => simp [run_command]
  | notFound => simp [run_command]

/-- C10: each binary is encrypted for the flash address at which it is later
flashed: the `(address, output)` pairs of `encryption_tasks` appear, in
order, as the address/file argument pairs of the `write_flash` command, and
each such pair occurs contiguously inside `flash_cmd`. -/
theorem encrypt_flash_addresses_align (a : Args) :
    ((encryption_tasks a).map fun t => (t.2.2.1, t.2.1))
      = [("0x1000", encrypted_bootloader), ("0x8000", encrypted_partitions),
         ("0x10000", encrypted_firmware)]
  ∧ flash_cmd a
      = ["esptool.py", "--chip", a.chip, "--port", a.port, "write_flash"]
        ++ [ "0x1000", encrypted_bootloader, "0x8000", encrypted_partitions,
             "0x10000", encrypted_firmware]
  ∧ (∀ t ∈ encryption_tasks a,
      ∃ l r, flash_cmd a = l ++ [t.2.2.1, t.2.1] ++ r) := by
  refine ⟨by simp [encryption_tasks], by simp [flash_cmd], ?_⟩
  intro t ht
  simp only [encryption_tasks, List.mem_cons, List.not_mem_nil, or_false] at ht
  rcases ht with rfl | rfl | rfl
  · exact ⟨["esptool.py", "--chip", a.chip, "--port", a.port, "write_flash"],
      ["0x8000", encrypted_partitions, "0x10000", encrypted_firmware],
      by simp [flash_cmd]⟩
  · exact ⟨["esptool.py", "--chip", a.chip, "--port", a.port, "write_flash",
      "0x1000", encrypted_bootloader],
      ["0x10000", encrypted_firmware], by simp [flash_cmd]⟩
  · exact ⟨["esptool.py", "--chip", a.chip, "--port", a.port, "write_flash",
      "0x1000", encrypted_bootloader, "0x8000", encrypted_partitions],
      [], by simp [flash_cmd]⟩

/-- Witness for C10 at concrete arguments. -/
theorem encrypt_flash_addresses_align_witness :
    ∃ l r, flash_cmd args_ex
      = l ++ [(bootloader_bin args_ex, encrypted_bootloader, "0x1000",
          "Encrypt bootloader").2.2.1,
         (bootloader_bin args_ex, encrypted_bootloader, "0x1000",
          "Encrypt bootloader").2.1] ++ r :=
  (encrypt_flash_addresses_align args_ex).2.2
    (bootloader_bin args_ex, encrypted_bootloader, "0x1000",
      "Encrypt bootloader") (by simp [encryption_tasks])
